import Mathlib

/-!
Verification of the qwik-analyzer component-presence resolver and source
patcher against its specification.

The development shallowly embeds the Rust sources:
  * `src/lib.rs` — the `Transformation` data model and the patch
    applicator inside `analyze_and_transform_code`;
  * `src/component_analyzer/mod.rs` — `analyze_code_with_semantics`;
  * `src/component_analyzer/jsx_analysis.rs` — JSX usage extraction and
    component-name filtering;
  * `src/component_analyzer/import_resolver.rs` — import lookup,
    `find_calls_in_file`, `file_has_component`,
    `resolve_component_from_index`;
  * `src/component_analyzer/component_presence.rs` — `has_component`,
    `find_presence_calls`, `is_external_import` and helpers;
  * `src/component_analyzer/transformations.rs` — patch generation;
  * `src/component_analyzer.rs` — the older monolithic analyzer, in
    particular the recursive `find_component_checks_in_file`.

Source text is a list of characters and byte offsets are modelled as
character offsets (`Nat`).  The external oxc parser and semantic model are
represented by a closed node type covering exactly the node kinds the
analyzer inspects; every file of the abstract filesystem carries its parse
result.  Filesystem-dependent import resolution (`resolve_import_path`,
which delegates to `oxc_resolver` plus extension/`index` probing and the
`~/` alias walk) and path canonicalization (`Path::canonicalize`) are
fields of the abstract world, since they are pure functions of the
filesystem state.
-/

/-! ### String helpers

Lean's built-in `String` functions do not reduce well in the kernel, so
the handful of string operations the Rust code uses (`contains('.')`,
`split('.')`, `starts_with`, `ends_with`, substring containment,
`replace(".", "_")`, ASCII lowercasing) are implemented over the
underlying character list. -/

/-- Rust `str::contains(c: char)`. -/
def strContainsChar (s : String) (c : Char) : Bool :=
  s.data.any (· = c)

/-- Whether `pre` is a prefix of `l`. -/
def listIsPrefix : List Char → List Char → Bool
  | [], _ => true
  | _ :: _, [] => false
  | c :: cs, d :: ds => c = d && listIsPrefix cs ds

/-- Rust `str::starts_with(pat: &str)`. -/
def strStartsWith (s pre : String) : Bool :=
  listIsPrefix pre.data s.data

/-- Rust `str::ends_with(pat: &str)`. -/
def strEndsWith (s suf : String) : Bool :=
  listIsPrefix suf.data.reverse s.data.reverse

/-- Whether `pat` occurs as a contiguous sublist of `l`. -/
def listHasSublist (pat : List Char) : List Char → Bool
  | [] => listIsPrefix pat []
  | c :: cs => listIsPrefix pat (c :: cs) || listHasSublist pat cs

/-- Rust `str::contains(pat: &str)` for a string pattern. -/
def strContainsSub (s pat : String) : Bool :=
  listHasSublist pat.data s.data

/-- Splitting a character list at every occurrence of `c`
(Rust `str::split(c)` semantics: `"A.B" ↦ ["A","B"]`, `"A." ↦ ["A",""]`). -/
def listSplitOnChar (c : Char) : List Char → List (List Char)
  | [] => [[]]
  | x :: xs =>
    match listSplitOnChar c xs with
    | [] => if x = c then [[], []] else [[x]]
    | h :: t => if x = c then [] :: h :: t else (x :: h) :: t

/-- Rust `str::split('.').collect::<Vec<_>>()`. -/
def splitOnDot (s : String) : List String :=
  (listSplitOnChar '.' s.data).map String.mk

/-- Rust `component_name.replace(".", "_")`; the pattern is a single
character, so the replacement is character-wise. -/
def strReplaceDotUnderscore (s : String) : String :=
  ⟨s.data.map fun c => if c = '.' then '_' else c⟩

/-- ASCII lowercasing of one character (model of Rust `to_lowercase` on
the ASCII names the analyzer compares against its ASCII tag table). -/
def asciiLowerChar (c : Char) : Char :=
  if 'A' ≤ c ∧ c ≤ 'Z' then Char.ofNat (c.toNat + 32) else c

/-- ASCII lowercasing of a string. -/
def strAsciiLower (s : String) : String :=
  ⟨s.data.map asciiLowerChar⟩

/-- First-element lookup in an association list (the abstract filesystem
and symbol tables below are association lists). -/
def assocFind {α : Type} (key : String) : List (String × α) → Option α
  | [] => none
  | (k, v) :: rest => if k = key then some v else assocFind key rest

/-! ### Patch data model and patch applicator (`src/lib.rs`) -/

/-- `Transformation` from `src/lib.rs:9-13`: a half-open byte range
`[start, stop)` of the original text plus replacement text.  (`end` is a
Lean keyword, hence the field name `stop`.) -/
structure Transformation where
  start : Nat
  stop : Nat
  replacement : String
deriving DecidableEq

/-- One iteration of the patch-application loop of
`analyze_and_transform_code` (`src/lib.rs:110-119`): if the patch passes
the bounds check against the *current* text it is spliced in, otherwise
the text is left unchanged (the patch is skipped silently). -/
def applyOne (t : List Char) (p : Transformation) : List Char :=
  if p.start ≤ t.length ∧ p.stop ≤ t.length ∧ p.start ≤ p.stop then
    t.take p.start ++ p.replacement.data ++ t.drop p.stop
  else
    t

/-- Stable insertion of a patch into a list sorted by descending `start`.
Together with `sortDescByStart` this models Rust's stable
`sort_by(|a, b| b.start.cmp(&a.start))` (`src/lib.rs:108`): a stable sort
by a fixed key is uniquely determined, so any stable sorting algorithm
yields the same list. -/
def insertDesc (p : Transformation) : List Transformation → List Transformation
  | [] => [p]
  | q :: rest => if q.start ≤ p.start then p :: q :: rest else q :: insertDesc p rest

/-- Stable sort by descending `start` (`src/lib.rs:107-108`). -/
def sortDescByStart : List Transformation → List Transformation
  | [] => []
  | p :: rest => insertDesc p (sortDescByStart rest)

/-- The patch applicator of `analyze_and_transform_code`
(`src/lib.rs:101-121`): sort by descending start, then fold the guarded
splice over the patches.  (With no patches the fold returns the text
unchanged, matching the early return at `src/lib.rs:101-103`.) -/
def applyTransformations (text : List Char) (ps : List Transformation) : List Char :=
  (sortDescByStart ps).foldl applyOne text

/-- Specification-side rendering of an ascending, non-overlapping patch
list against the *original* text: the segments of the original text
between patch spans are kept, and each replacement sits exactly in place
of its original range `[start, stop)`.  `pos` is the offset of the
original text already emitted. -/
def renderPatches (text : List Char) : Nat → List Transformation → List Char
  | pos, [] => text.drop pos
  | pos, p :: ps =>
    (text.drop pos).take (p.start - pos) ++ p.replacement.data ++ renderPatches text p.stop ps

/-- Two patches with disjoint half-open ranges. -/
def patchDisjoint (p q : Transformation) : Prop :=
  p.stop ≤ q.start ∨ q.stop ≤ p.start

/-- An ascending chain of patches: each starts no earlier than `pos`, is
well-formed, within the text, and ends before the next one starts. -/
def patchChain (textLen : Nat) : Nat → List Transformation → Prop
  | _, [] => True
  | pos, p :: ps =>
    pos ≤ p.start ∧ p.start ≤ p.stop ∧ p.stop ≤ textLen ∧ patchChain textLen p.stop ps

/-- Prop-name derivation following the specification's words for claim
C9: the fixed prefix followed by the component name with *every*
non-alphanumeric character replaced by `'_'`. -/
def propNameSpecWords (n : String) : String :=
  "__qwik_analyzer_has_" ++ ⟨n.data.map fun c => if c.isAlphanum then c else '_'⟩

/-- Prop-name derivation as implemented
(`src/component_analyzer/transformations.rs:73-76` and `:350`): the fixed
prefix followed by the component name with only `'.'` replaced by `'_'`. -/
def propNameOf (n : String) : String :=
  "__qwik_analyzer_has_" ++ strReplaceDotUnderscore n

/-! ### Abstract AST and filesystem model

The analyzer inspects a closed set of oxc node kinds: import
declarations, call expressions, JSX opening elements, named export
declarations and variable declarators.  `semantic.nodes().iter()` visits
nodes in source order, which the `nodes` list reflects. -/

/-- A JSX element name (`oxc_ast::ast::JSXElementName`).  `tag` is the
`Identifier` variant (non-reference names such as lowercase tags), `ref`
is the `IdentifierReference` variant (component references), `member` is
a member expression whose object is an identifier reference, `memberDeep`
is a member expression whose object is itself a member expression
(carrying the dotted text of the object), and `other` covers the
`NamespacedName`/`ThisExpression` variants. -/
inductive JSXName where
  | tag (name : String)
  | ref (name : String)
  | member (obj prop : String)
  | memberDeep (objDotted prop : String)
  | other
deriving DecidableEq

/-- An arrow-function argument of a call (only its span start and whether
`params.items` is non-empty are inspected, by `find_component_info`). -/
structure ArrowFn where
  spanStart : Nat
  hasParams : Bool
deriving DecidableEq

/-- A call argument.  `text` is the source text of the argument's span
(the analyzer slices `source_text[span.start..span.end]`), `identName` is
`some name` exactly when the argument is a bare `Identifier` expression
(`extract_component_name_from_argument`), `arrow` is `some` exactly when
the argument is an arrow function expression. -/
structure CallArg where
  text : String
  identName : Option String
  arrow : Option ArrowFn
  span : Nat × Nat
deriving DecidableEq

/-- A byte span. -/
structure Span where
  start : Nat
  stop : Nat
deriving DecidableEq

/-- One AST node of the kinds the analyzer matches on.
`importDecl`: source specifier and, when present, the list of local
specifier names (`get_specifier_name` of each specifier).
`callExpr`: `extract_function_name` of the callee (`some` only for a bare
identifier callee), arguments, full call span.
`jsxOpening`: element name and span.
`exportNamed`: exported names of the specifiers and the optional
re-export source.
`varDecl`: the binding identifier (if the pattern binds one) and, when
the initializer is an object expression, its `key : identifier-value`
properties (`none` value for a non-identifier property value). -/
inductive Node where
  | importDecl (source : String) (specifiers : Option (List String))
  | callExpr (callee : Option String) (args : List CallArg) (span : Span)
  | jsxOpening (name : JSXName) (span : Span)
  | exportNamed (specifiers : List String) (source : Option String)
  | varDecl (bindingName : Option String) (objectInit : Option (List (String × Option String)))
deriving DecidableEq

/-- A parsed file: its nodes in source order plus the root-scope bindings
(`semantic.scoping().get_root_binding(name)`), as name ↦ symbol id. -/
structure ParsedFile where
  nodes : List Node
  rootBindings : List (String × Nat)
deriving DecidableEq

/-- A file of the abstract filesystem: its raw text and its parse result
(`none` models a parse with errors). -/
structure FileEntry where
  text : String
  parsed : Option ParsedFile
deriving DecidableEq

/-- The abstract world: the files (reads of absent paths fail), directory
listings (`fs::read_dir`, in listing order), the import resolver
(`resolve_import_path` of `import_resolver.rs:47-103`, a pure function of
the filesystem: oxc_resolver plus extension/`index` probing and the `~/`
alias walk), and path canonicalization (`Path::canonicalize`, `none` when
it fails). -/
structure World where
  files : List (String × FileEntry)
  dirs : List (String × List String)
  resolve : String → String → Option String
  canon : String → Option String

/-- Whether the path names an existing file (`Path::is_file` /
`Path::exists` on the abstract filesystem). -/
def isFile (w : World) (p : String) : Bool :=
  (assocFind p w.files).isSome

/-- `resolve_import_path` (`import_resolver.rs:47-103`), abstracted as the
world's resolver; `none` is the `Err` case. -/
def resolveImportPath (w : World) (importSource currentFile : String) : Option String :=
  w.resolve importSource currentFile

/-- External predicates from the `oxc_syntax` crate used by
`is_component_name`: `is_identifier_name` and
`is_reserved_keyword_or_global_object`.  They are collaborator code, so
the development is parameterized over them. -/
structure NamePreds where
  isIdentifierName : String → Bool
  isReservedKeywordOrGlobalObject : String → Bool

/-- The `HTML_TAGS` set (`jsx_analysis.rs:11-161`), verbatim. -/
def htmlTags : List String :=
  ["a", "abbr", "acronym", "address", "applet", "area", "article", "aside",
   "audio", "b", "base", "basefont", "bdi", "bdo", "bgsound", "big", "blink",
   "blockquote", "body", "br", "button", "canvas", "caption", "center",
   "cite", "code", "col", "colgroup", "command", "content", "data",
   "datalist", "dd", "del", "details", "dfn", "dialog", "dir", "div", "dl",
   "dt", "element", "em", "embed", "fieldset", "figcaption", "figure",
   "font", "footer", "form", "frame", "frameset", "h1", "h2", "h3", "h4",
   "h5", "h6", "head", "header", "hgroup", "hr", "html", "i", "iframe",
   "image", "img", "input", "ins", "isindex", "kbd", "keygen", "label",
   "legend", "li", "link", "listing", "main", "map", "mark", "marquee",
   "math", "menu", "menuitem", "meta", "meter", "multicol", "nav", "nextid",
   "nobr", "noembed", "noframes", "noscript", "object", "ol", "optgroup",
   "option", "output", "p", "param", "picture", "plaintext", "pre",
   "progress", "q", "rb", "rbc", "rp", "rt", "rtc", "ruby", "s", "samp",
   "script", "search", "section", "select", "shadow", "slot", "small",
   "source", "spacer", "span", "strike", "strong", "style", "sub",
   "summary", "sup", "svg", "table", "tbody", "td", "template", "textarea",
   "tfoot", "th", "thead", "time", "title", "tr", "track", "tt", "u", "ul",
   "var", "video", "wbr", "xmp"]

/-- `is_html_element` (`jsx_analysis.rs:262-264`): membership of the
lowercased name in `HTML_TAGS`. -/
def isHtmlElement (name : String) : Bool :=
  htmlTags.any (· = strAsciiLower name)

/-- `name.chars().next().map_or(false, |c| c.is_ascii_uppercase())`
(`jsx_analysis.rs:216-220`). -/
def firstCharIsAsciiUppercase (name : String) : Bool :=
  match name.data with
  | [] => false
  | c :: _ => 'A' ≤ c ∧ c ≤ 'Z'

/-- `is_component_name` (`jsx_analysis.rs:211-229`). -/
def isComponentName (P : NamePreds) (name : String) : Bool :=
  if !(P.isIdentifierName name) then false
  else if !(firstCharIsAsciiUppercase name) then false
  else if P.isReservedKeywordOrGlobalObject name then false
  else !(isHtmlElement name)

/-- `extract_jsx_element_name` (`jsx_analysis.rs:231-244`), also
`extract_jsx_element_name_enhanced` (`component_presence.rs:421-450`):
identifier and identifier-reference names verbatim, member expressions as
the dotted object text joined with the property. -/
def extractJsxElementName : JSXName → Option String
  | .tag name => some name
  | .ref name => some name
  | .member obj prop => some (obj ++ "." ++ prop)
  | .memberDeep objDotted prop => some (objDotted ++ "." ++ prop)
  | .other => none

/-- `parse_member_component` (`jsx_analysis.rs:202-209`). -/
def parseMemberComponent (elementName : String) : Option String :=
  match splitOnDot elementName with
  | [a, b] => some (a ++ "." ++ b)
  | _ => none

/-- Insertion into the dedup list standing for the `HashSet` of
`extract_imported_jsx_components`: the list holds the set's elements in
insertion order.  `HashSet` iteration order is unspecified (and randomized
across runs by Rust's `RandomState`); where that order matters it is an
explicit parameter of the caller below. -/
def insertNew (x : String) (l : List String) : List String :=
  if x ∈ l then l else l ++ [x]

/-- One loop iteration of `extract_imported_jsx_components`
(`jsx_analysis.rs:163-200`): member-style element names are inserted in
their two-segment dotted form, bare names only when `is_component_name`
accepts them. -/
def extractStep (P : NamePreds) (acc : List String) (n : Node) : List String :=
  match n with
  | .jsxOpening name _ =>
    match extractJsxElementName name with
    | none => acc
    | some elementName =>
      if strContainsChar elementName '.' then
        match parseMemberComponent elementName with
        | some fullComponent => insertNew fullComponent acc
        | none => acc
      else if isComponentName P elementName then insertNew elementName acc
      else acc
  | _ => acc

/-- `extract_imported_jsx_components` (`jsx_analysis.rs:163-200`), as the
set of extracted names in insertion order. -/
def extractImportedJsxComponents (P : NamePreds) (pf : ParsedFile) : List String :=
  pf.nodes.foldl (extractStep P) []

/-- `find_import_source_for_component` (`import_resolver.rs:16-45`): the
module source of the first import declaration having a specifier whose
local name equals `componentName`. -/
def findImportSourceForComponent (pf : ParsedFile) (componentName : String) : Option String :=
  pf.nodes.findSome? fun n =>
    match n with
    | .importDecl source specifiers =>
      match specifiers with
      | none => none
      | some locals => if componentName ∈ locals then some source else none
    | _ => none

/-- `is_external_import` (`component_presence.rs:18-30`): resolve the
given import; external iff the resolved path contains `node_modules`, or
the resolution fails. -/
def isExternalImport (w : World) (importSource currentFile : String) : Bool :=
  match resolveImportPath w importSource currentFile with
  | some resolvedPath => strContainsSub resolvedPath "node_modules"
  | none => true

/-- `ComponentPresenceCall` (`utils.rs:4-9`). -/
structure ComponentPresenceCall where
  componentName : String
  isPresentInSubtree : Bool
  sourceFile : String
deriving DecidableEq

/-- The call-collecting loop of `find_calls_in_file`
(`import_resolver.rs:207-253`) over the nodes of an already-parsed file:
`isComponentPresent` calls with a first argument that is an identifier,
or whose source text contains a `'.'`; other calls are skipped. -/
def presenceCallsOfNodes (filePath : String) (nodes : List Node) : List ComponentPresenceCall :=
  nodes.filterMap fun n =>
    match n with
    | .callExpr callee args _ =>
      if callee = some "isComponentPresent" then
        args.head?.bind fun arg =>
          match arg.identName with
          | some name => some ⟨name, false, filePath⟩
          | none =>
            if strContainsChar arg.text '.' then some ⟨arg.text, false, filePath⟩
            else none
      else none
    | _ => none

/-- `find_calls_in_file` (`import_resolver.rs:189-256`): a failing read
is an error, a file with parse errors yields `Ok(vec![])`. -/
def findCallsInFile (w : World) (filePath : String) : Except Unit (List ComponentPresenceCall) :=
  match assocFind filePath w.files with
  | none => .error ()
  | some entry =>
    match entry.parsed with
    | none => .ok []
    | some pf => .ok (presenceCallsOfNodes filePath pf.nodes)

/-- `file_has_component` (`import_resolver.rs:258-291`): whether some JSX
element name equals the target or ends with `"." ++ target`. -/
def fileHasComponent (w : World) (filePath targetComponent : String) : Except Unit Bool :=
  match assocFind filePath w.files with
  | none => .error ()
  | some entry =>
    match entry.parsed with
    | none => .ok false
    | some pf =>
      .ok (pf.nodes.any fun n =>
        match n with
        | .jsxOpening name _ =>
          match extractJsxElementName name with
          | some elementName =>
            elementName = targetComponent || strEndsWith elementName ("." ++ targetComponent)
          | none => false
        | _ => false)

/-- `resolve_component_from_index` (`import_resolver.rs:105-186`): in the
parsed index file, the first re-export specifier of `componentName` with a
source resolves that source; the first object-export property whose key is
`componentName` and whose value is an imported identifier resolves that
identifier's import source; otherwise an error. -/
def resolveComponentFromIndex (w : World) (indexFilePath componentName : String) : Except Unit String :=
  match assocFind indexFilePath w.files with
  | none => .error ()
  | some entry =>
    match entry.parsed with
    | none => .error ()
    | some pf =>
      let hit := pf.nodes.findSome? fun n =>
        match n with
        | .exportNamed specifiers source =>
          if componentName ∈ specifiers then
            match source with
            | some s => some (resolveImportPath w s indexFilePath)
            | none => none
          else none
        | .varDecl _ objectInit =>
          match objectInit with
          | none => none
          | some props =>
            props.findSome? fun kv =>
              if kv.1 = componentName then
                match kv.2 with
                | some valueIdent =>
                  match findImportSourceForComponent pf valueIdent with
                  | some importSource => some (resolveImportPath w importSource indexFilePath)
                  | none => none
                | none => none
              else none
        | _ => none
      match hit with
      | some (some resolved) => .ok resolved
      | some none => .error ()
      | none => .error ()

/-! ### Direct JSX presence check (`utils.rs`) -/

/-- The `extract_jsx_element_name` private to `utils.rs:135-149`: unlike
the `jsx_analysis.rs` version it does not match `IdentifierReference`
names and only handles member expressions whose object is an identifier. -/
def utilsExtractJsxElementName : JSXName → Option String
  | .tag name => some name
  | .member obj prop => some (obj ++ "." ++ prop)
  | _ => none

/-- `get_jsx_element_symbol_id` (`utils.rs:115-133`): the root binding of
an `Identifier` element name, or of the identifier object of a member
expression. -/
def getJsxElementSymbolId (name : JSXName) (pf : ParsedFile) : Option Nat :=
  match name with
  | .tag n => assocFind n pf.rootBindings
  | .member obj _ => assocFind obj pf.rootBindings
  | _ => none

/-- `can_resolve_namespace_locally` (`utils.rs:92-107`): whether the
namespace's import source resolves successfully. -/
def canResolveNamespaceLocally (w : World) (pf : ParsedFile) (namespaceName currentFile : String) : Bool :=
  match findImportSourceForComponent pf namespaceName with
  | some importSource => (resolveImportPath w importSource currentFile).isSome
  | none => false

/-- `component_exists_in_jsx_with_path` (`utils.rs:40-89`): symbol-id
match, exact name match, or — for a bare target — a two-segment dotted
usage whose property equals the target and whose namespace's import
resolves. -/
def componentExistsInJsxWithPath (w : World) (pf : ParsedFile) (componentName currentFile : String) : Bool :=
  let targetSymbolId := assocFind componentName pf.rootBindings
  pf.nodes.any fun n =>
    match n with
    | .jsxOpening name _ =>
      (match getJsxElementSymbolId name pf, targetSymbolId with
       | some jsxId, some targetId => jsxId = targetId
       | _, _ => false)
      ||
      (match utilsExtractJsxElementName name with
       | none => false
       | some elementName =>
         elementName = componentName
         || (!(strContainsChar componentName '.') && strContainsChar elementName '.' &&
             (match splitOnDot elementName with
              | [namespaceName, propertyName] =>
                propertyName = componentName
                && canResolveNamespaceLocally w pf namespaceName currentFile
              | _ => false)))
    | _ => false

/-! ### Recursive presence search helpers (`component_presence.rs`) -/

/-- The last path segment of a path string. -/
def lastPathSegment (p : String) : String :=
  ⟨((listSplitOnChar '/' p.data).getLastD []).map id⟩

/-- Rust `Path::parent` as a string operation: strip the final `/`
segment; `none` when there is no parent. -/
def parentDir (p : String) : Option String :=
  match (listSplitOnChar '/' p.data).dropLast with
  | [] => none
  | segs => some ⟨List.intercalate ['/'] segs⟩

/-- Rust `Path::extension`: the part of the file name after the last
`'.'`, `none` when the name has no dot. -/
def pathExtension (p : String) : Option String :=
  match listSplitOnChar '.' (lastPathSegment p).data with
  | [] => none
  | [_] => none
  | parts => some ⟨parts.getLastD []⟩

/-- `oxc_span::VALID_EXTENSIONS` (external constant of the oxc crate). -/
def validExtensions : List String :=
  ["js", "mjs", "cjs", "jsx", "ts", "mts", "cts", "tsx"]

/-- `find_calls_in_module` (`component_presence.rs:233-266`): scan the
files directly inside the module directory, collecting presence calls of
every source file that parses (read/parse failures of a file skip it). -/
def findCallsInModule (w : World) (modulePath : String) : Except Unit (List ComponentPresenceCall) :=
  let dirOpt :=
    if strEndsWith modulePath ".ts" || strEndsWith modulePath ".tsx"
        || strEndsWith modulePath ".js" || strEndsWith modulePath ".jsx" then
      parentDir modulePath
    else some modulePath
  match dirOpt with
  | none => .error ()
  | some moduleDir =>
    let entries := (assocFind moduleDir w.dirs).getD []
    .ok (entries.foldl
      (fun acc p =>
        if isFile w p
            && (match pathExtension p with
                | some ext => validExtensions.any (· = ext)
                | none => false) then
          acc ++ ((findCallsInFile w p).toOption.getD [])
        else acc)
      [])

/-- The `index`-file preference used at `component_presence.rs:67-81`,
`:520-534`, `:306-319` and `transformations.rs:127-141`: a resolved file
is used as is; for a directory, `index.ts` then `index.tsx` inside it is
preferred; the fallback differs per call site and is passed in. -/
def pickIndexFile (w : World) (modulePath : String) (fallback : Option String) : Option String :=
  if isFile w modulePath then some modulePath
  else if isFile w (modulePath ++ "/index.ts") then some (modulePath ++ "/index.ts")
  else if isFile w (modulePath ++ "/index.tsx") then some (modulePath ++ "/index.tsx")
  else fallback

/-- `component_file_defines_component` (`component_presence.rs:324-369`):
read error is an error, parse errors give `Ok(false)`, otherwise the file
defines the component iff some export specifier or variable declarator
binds that name. -/
def componentFileDefinesComponent (w : World) (componentFile componentName : String) : Except Unit Bool :=
  match assocFind componentFile w.files with
  | none => .error ()
  | some entry =>
    match entry.parsed with
    | none => .ok false
    | some pf =>
      .ok (pf.nodes.any fun n =>
        match n with
        | .exportNamed specifiers _ => componentName ∈ specifiers
        | .varDecl bindingName _ => bindingName = some componentName
        | _ => false)

/-- `resolve_member_expression_to_component`
(`component_presence.rs:484-544`). -/
def resolveMemberExpressionToComponent (w : World) (jsxElementName targetComponent : String)
    (pf : ParsedFile) (currentFile : String) : Except Unit Bool :=
  match splitOnDot jsxElementName with
  | [namespaceName, componentName] =>
    match findImportSourceForComponent pf namespaceName with
    | none => .ok false
    | some importSource =>
      if isExternalImport w importSource currentFile then .ok false
      else
        match resolveImportPath w importSource currentFile with
        | none => .ok false
        | some modulePath =>
          match pickIndexFile w modulePath none with
          | none => .ok false
          | some indexFile =>
            match resolveComponentFromIndex w indexFile componentName with
            | .ok componentFile => componentFileDefinesComponent w componentFile targetComponent
            | .error _ => .ok false
  | _ => .ok false

/-- `jsx_element_resolves_to_target` (`component_presence.rs:453-481`);
the reverse resolution (`resolve_simple_name_to_member_expression`,
`:546-555`) is not implemented in the source and returns `Ok(false)`. -/
def jsxElementResolvesToTarget (w : World) (jsxElementName targetComponent : String)
    (pf : ParsedFile) (currentFile : String) : Except Unit Bool :=
  if jsxElementName = targetComponent then .ok true
  else if strContainsChar jsxElementName '.' && !(strContainsChar targetComponent '.') then
    resolveMemberExpressionToComponent w jsxElementName targetComponent pf currentFile
  else .ok false

/-- The per-element loop of `analyze_jsx_content_in_component_file`
(`component_presence.rs:399-414`). -/
def analyzeJsxContentLoop (w : World) (pf : ParsedFile) (componentFile targetComponent : String) :
    List Node → Except Unit Bool
  | [] => .ok false
  | n :: rest =>
    match n with
    | .jsxOpening name _ =>
      match extractJsxElementName name with
      | none => analyzeJsxContentLoop w pf componentFile targetComponent rest
      | some jsxElementName => do
        let b ← jsxElementResolvesToTarget w jsxElementName targetComponent pf componentFile
        if b then return true
        else analyzeJsxContentLoop w pf componentFile targetComponent rest
    | _ => analyzeJsxContentLoop w pf componentFile targetComponent rest

/-- `analyze_jsx_content_in_component_file`
(`component_presence.rs:373-418`): read error propagates, parse errors
give `Ok(false)`, otherwise the file's JSX elements are checked one by
one against the target. -/
def analyzeJsxContentInComponentFile (w : World) (componentFile targetComponent : String) :
    Except Unit Bool :=
  match assocFind componentFile w.files with
  | none => .error ()
  | some entry =>
    match entry.parsed with
    | none => .ok false
    | some pf => analyzeJsxContentLoop w pf componentFile targetComponent pf.nodes

/-- `resolve_component_from_jsx_to_file` (`component_presence.rs:268-322`):
re-reads and re-parses the current file, resolves the namespace's import,
prefers an index file (erroring when none is found) and resolves the
component through it. -/
def resolveComponentFromJsxToFile (w : World) (jsxComponent currentFile : String) :
    Except Unit String :=
  match splitOnDot jsxComponent with
  | [moduleName, componentName] =>
    if strContainsChar jsxComponent '.' then
      match assocFind currentFile w.files with
      | none => .error ()
      | some entry =>
        match entry.parsed with
        | none => .error ()
        | some pfCurrent =>
          match findImportSourceForComponent pfCurrent moduleName with
          | none => .error ()
          | some importSource =>
            match resolveImportPath w importSource currentFile with
            | none => .error ()
            | some modulePath =>
              match pickIndexFile w modulePath none with
              | none => .error ()
              | some indexFile => resolveComponentFromIndex w indexFile componentName
    else .error ()
  | _ => .error ()

/-! ### The presence search `has_component` (`component_presence.rs:108-231`) -/

/-- The body of `has_component`'s loop over the imported JSX components
(`component_presence.rs:133-224`), in source order:
first the dotted-usage/bare-target index resolution (with `?` on
`component_file_defines_component`), then the both-dotted exact match
with its external-import guard, then the general per-import analysis
(`find_calls_in_file` errors are swallowed; `?` on
`analyze_jsx_content_in_component_file` and `file_has_component`).
Note there is no `visited` set: the function carries no such parameter in
the source. -/
def hasComponentLoop (w : World) (pf : ParsedFile) (componentName currentFile : String) :
    List String → Except Unit Bool
  | [] => .ok false
  | jsxComponent :: rest => do
    if strContainsChar jsxComponent '.' && !(strContainsChar componentName '.') then
      match resolveComponentFromJsxToFile w jsxComponent currentFile with
      | .ok componentFile => do
        let defines ← componentFileDefinesComponent w componentFile componentName
        if defines then return true
      | .error _ => pure ()
    if strContainsChar jsxComponent '.' && strContainsChar componentName '.' then
      if jsxComponent = componentName then
        let moduleName := (splitOnDot jsxComponent).headD ""
        match findImportSourceForComponent pf moduleName with
        | some importSource =>
          if isExternalImport w importSource currentFile then
            hasComponentLoop w pf componentName currentFile rest
          else return true
        | none => return true
      else hasComponentLoop w pf componentName currentFile rest
    else
      match findImportSourceForComponent pf jsxComponent with
      | none => hasComponentLoop w pf componentName currentFile rest
      | some importSource =>
        if isExternalImport w importSource currentFile then
          hasComponentLoop w pf componentName currentFile rest
        else
          match resolveImportPath w importSource currentFile with
          | none => hasComponentLoop w pf componentName currentFile rest
          | some resolvedPath =>
            let presenceCalls := (findCallsInFile w resolvedPath).toOption.getD []
            if presenceCalls.any (fun call => call.componentName = componentName) then
              return true
            else do
              let inJsx ← analyzeJsxContentInComponentFile w resolvedPath componentName
              if inJsx then return true
              else if presenceCalls.isEmpty then
                if !(strContainsChar componentName '.') then do
                  let inFile ← fileHasComponent w resolvedPath componentName
                  if inFile then return true
                  else hasComponentLoop w pf componentName currentFile rest
                else hasComponentLoop w pf componentName currentFile rest
              else hasComponentLoop w pf componentName currentFile rest

/-- `has_component` (`component_presence.rs:108-231`): the direct check
via `component_exists_in_jsx_with_path`, then the loop over the imported
JSX components.  The inner `HashSet` is traversed in insertion order
here; `has_component`'s boolean result is what the analyzer consumes. -/
def hasComponent (P : NamePreds) (w : World) (pf : ParsedFile) (componentName currentFile : String) :
    Except Unit Bool :=
  if componentExistsInJsxWithPath w pf componentName currentFile then .ok true
  else hasComponentLoop w pf componentName currentFile (extractImportedJsxComponents P pf)

/-- `find_presence_calls` (`component_presence.rs:32-106`). -/
def findPresenceCalls (w : World) (pf : ParsedFile) (jsxComponent currentFile : String) :
    Except Unit (List ComponentPresenceCall) :=
  if strContainsChar jsxComponent '.' then
    match splitOnDot jsxComponent with
    | [moduleName, componentName] =>
      match findImportSourceForComponent pf moduleName with
      | none => .ok []
      | some importSource =>
        match resolveImportPath w importSource currentFile with
        | none => .ok []
        | some moduleDir =>
          match pickIndexFile w moduleDir (some moduleDir) with
          | none => .ok []
          | some indexFile =>
            match resolveComponentFromIndex w indexFile componentName with
            | .ok componentFile => findCallsInFile w componentFile
            | .error _ => findCallsInModule w moduleDir
    | _ => .ok []
  else
    match findImportSourceForComponent pf jsxComponent with
    | none => .ok []
    | some importSource =>
      match resolveImportPath w importSource currentFile with
      | none => .ok []
      | some resolvedPath => findCallsInFile w resolvedPath

/-! ### Patch generation (`transformations.rs`) -/

/-- Whether two paths denote the same file, compared through
`Path::canonicalize` when both canonicalize, by string equality otherwise
(`transformations.rs:155-177` and `:198-218`). -/
def pathsMatch (w : World) (a b : String) : Bool :=
  match w.canon a, w.canon b with
  | some ca, some cb => ca = cb
  | _, _ => a = b

/-- `jsx_element_resolves_to_source_file` (`transformations.rs:91-223`). -/
def jsxElementResolvesToSourceFile (w : World) (pf : ParsedFile)
    (elementName targetSourceFile currentFile : String) : Bool :=
  if strContainsChar elementName '.' then
    match splitOnDot elementName with
    | [moduleName, componentName] =>
      match findImportSourceForComponent pf moduleName with
      | none => false
      | some importSource =>
        match resolveImportPath w importSource currentFile with
        | none => false
        | some modulePath =>
          match pickIndexFile w modulePath (some modulePath) with
          | none => false
          | some indexFile =>
            match resolveComponentFromIndex w indexFile componentName with
            | .ok componentFile => pathsMatch w componentFile targetSourceFile
            | .error _ => false
    | _ => false
  else
    match findImportSourceForComponent pf elementName with
    | none => false
    | some importSource =>
      match resolveImportPath w importSource currentFile with
      | none => false
      | some resolvedPath => pathsMatch w resolvedPath targetSourceFile

/-- `generate_jsx_prop_transformations` (`transformations.rs:29-89`): one
insertion just before the closing angle bracket of every JSX element
that resolves to the call's source file, injecting the attribute text
built from the derived prop name and the call's boolean verdict. -/
def generateJsxPropTransformations (w : World) (pf : ParsedFile)
    (call : ComponentPresenceCall) (currentFile : String) : List Transformation :=
  pf.nodes.filterMap fun n =>
    match n with
    | .jsxOpening name span =>
      match extractJsxElementName name with
      | none => none
      | some elementName =>
        if jsxElementResolvesToSourceFile w pf elementName call.sourceFile currentFile then
          some ⟨span.stop - 1, span.stop - 1,
            " " ++ propNameOf call.componentName ++ "=\x7b"
              ++ (if call.isPresentInSubtree then "true" else "false") ++ "\x7d"⟩
        else none
    | _ => none

/-- `transform_file` (`transformations.rs:13-27`): JSX prop injections
for every presence call (present or not). -/
def transformFile (w : World) (pf : ParsedFile) (componentCalls : List ComponentPresenceCall)
    (currentFile : String) : List Transformation :=
  componentCalls.flatMap fun call => generateJsxPropTransformations w pf call currentFile

/-- `has_component_present_calls` (`transformations.rs:246-262`). -/
def hasComponentPresentCalls (pf : ParsedFile) : Bool :=
  pf.nodes.any fun n =>
    match n with
    | .callExpr callee _ _ => callee = some "isComponentPresent"
    | _ => false

/-- `find_component_info` (`transformations.rs:296-313`): the first
`component$` call whose first argument is an arrow function, as the
arrow's span start and whether it already has parameters. -/
def findComponentInfo (pf : ParsedFile) : Option (Nat × Bool) :=
  pf.nodes.findSome? fun n =>
    match n with
    | .callExpr callee args _ =>
      if callee = some "component$" then
        match args.head? with
        | some arg => arg.arrow.map fun a => (a.spanStart, a.hasParams)
        | none => none
      else none
    | _ => none

/-- `create_props_parameter_transformation` (`transformations.rs:264-294`):
when the `component$` arrow has no parameters, insert `"props: any"` right
after the first `'('` at or after the arrow's start. -/
def createPropsParameterTransformation (pf : ParsedFile) (sourceText : String) :
    Option Transformation :=
  match findComponentInfo pf with
  | none => none
  | some (componentStart, componentHasProps) =>
    if componentHasProps then none
    else
      match (sourceText.data.drop componentStart).findIdx? (· = '(') with
      | none => none
      | some parenPos =>
        some ⟨componentStart + parenPos + 1, componentStart + parenPos + 1, "props: any"⟩

/-- The component-name extraction of
`create_component_present_call_transformations`
(`transformations.rs:342-348`): the identifier argument's name, else the
argument's source text when it contains a `'.'`, else the call is
skipped. -/
def extractedComponentName (arg : CallArg) : Option String :=
  match arg.identName with
  | some name => some name
  | none => if strContainsChar arg.text '.' then some arg.text else none

/-- The per-node loop of `create_component_present_call_transformations`
(`transformations.rs:315-367`): replace every `isComponentPresent` call
span by the call re-emitted with its original argument text plus
`props.<derived prop name>`. -/
def createCallTransformsOfNodes (nodes : List Node) : List Transformation :=
  nodes.filterMap fun n =>
    match n with
    | .callExpr callee args span =>
      if callee = some "isComponentPresent" then
        args.head?.bind fun arg =>
          (extractedComponentName arg).map fun componentName =>
            ⟨span.start, span.stop,
              "isComponentPresent(" ++ arg.text ++ ", props." ++ propNameOf componentName ++ ")"⟩
      else none
    | _ => none

/-- `create_component_present_call_transformations`
(`transformations.rs:315-367`): re-reads the file (an absent file is an
error) and rewrites every marker call of the given semantic model. -/
def createComponentPresentCallTransformations (w : World) (pf : ParsedFile) (filePath : String) :
    Except Unit (List Transformation) :=
  match assocFind filePath w.files with
  | none => .error ()
  | some _ => .ok (createCallTransformsOfNodes pf.nodes)

/-- `transform_components` (`transformations.rs:225-244`): nothing when
the file has no marker call; otherwise read the file text, optionally add
the props parameter, then rewrite the marker calls. -/
def transformComponents (w : World) (pf : ParsedFile) (filePath : String) :
    Except Unit (List Transformation) :=
  if ¬ hasComponentPresentCalls pf then .ok []
  else
    match assocFind filePath w.files with
    | none => .error ()
    | some entry => do
      let callRewrites ← createComponentPresentCallTransformations w pf filePath
      return ((createPropsParameterTransformation pf entry.text).toList ++ callRewrites)

/-! ### The analyzer entry point (`mod.rs`) -/

/-- `AnalysisResult` as the analyzer fills it (`src/lib.rs:15-22`,
`mod.rs:88-93`): the presence verdict and the transformations.  (The
`file_path` echo and the always-empty `dependencies` field carry no
information.) -/
structure AnalysisOutcome where
  has_description : Bool
  transformations : List Transformation
deriving DecidableEq

/-- The presence-marking loop of `mod.rs:63-65`: each collected call's
`is_present_in_subtree` is set from `has_component`, whose error aborts
the analysis (`?`). -/
def setPresence (P : NamePreds) (w : World) (pf : ParsedFile) (filePath : String) :
    List ComponentPresenceCall → Except Unit (List ComponentPresenceCall)
  | [] => .ok []
  | call :: rest => do
    let b ← hasComponent P w pf call.componentName filePath
    let rest' ← setPresence P w pf filePath rest
    return { call with isPresentInSubtree := b } :: rest'

/-- `analyze_code_with_semantics` (`mod.rs:25-94`) with the top-level
`HashSet` iteration order of `extract_imported_jsx_components` passed
explicitly (`jsxComponents`); a run of the Rust analyzer corresponds to
some permutation of the extracted set.  `parsed = none` models parser
errors on the supplied source text, which return an empty `Ok` result
(`mod.rs:36-44`). -/
def analyzeCodeWithSemanticsOrd (P : NamePreds) (w : World) (parsed : Option ParsedFile)
    (filePath : String) (jsxComponents : List String) : Except Unit AnalysisOutcome :=
  match parsed with
  | none => .ok ⟨false, []⟩
  | some pf => do
    let allComponentCalls :=
      jsxComponents.flatMap fun c => (findPresenceCalls w pf c filePath).toOption.getD []
    let markedCalls ← setPresence P w pf filePath allComponentCalls
    let hasAnyComponent := markedCalls.any (·.isPresentInSubtree)
    let fileTransforms :=
      if hasAnyComponent then transformFile w pf markedCalls filePath else []
    let componentTransforms ← transformComponents w pf filePath
    return ⟨hasAnyComponent, fileTransforms ++ componentTransforms⟩

/-- `analyze_code_with_semantics` with the set iterated in insertion
order (one of its possible runs). -/
def analyzeCodeWithSemantics (P : NamePreds) (w : World) (parsed : Option ParsedFile)
    (filePath : String) : Except Unit AnalysisOutcome :=
  analyzeCodeWithSemanticsOrd P w parsed filePath
    (match parsed with
     | some pf => extractImportedJsxComponents P pf
     | none => [])

/-! ### The older monolithic analyzer (`src/component_analyzer.rs`) -/

/-- `ComponentWithCheck` (`component_analyzer.rs:22-26`). -/
structure ComponentWithCheck where
  componentName : String
  checksFor : String
deriving DecidableEq

/-- The direct scan of `find_component_checks_in_file`
(`component_analyzer.rs:282-296`): `isComponentPresent` calls whose first
argument is an identifier, recorded with the hard-coded component name
`"Root"`. -/
def oldDirectChecks (nodes : List Node) : List ComponentWithCheck :=
  nodes.filterMap fun n =>
    match n with
    | .callExpr callee args _ =>
      if callee = some "isComponentPresent" then
        (args.head?.bind (·.identName)).map fun name => ⟨"Root", name⟩
      else none
    | _ => none

/-- The import-following loop of `find_component_checks_in_file`
(`component_analyzer.rs:299-329`): every relative import whose specifier
contains `root`/`Root` is resolved and recursed into; resolution failures
and erroring recursive calls are skipped, successful ones extend the
check list.  `recurse` is the recursive call (fuelled by the caller); an
exhausted recursion (`none`) propagates, modelling the unbounded descent
of the Rust original. -/
def oldGoImports (recurse : String → Option (Except Unit (List ComponentWithCheck)))
    (w : World) (filePath : String) :
    List Node → List ComponentWithCheck → Option (Except Unit (List ComponentWithCheck))
  | [], acc => some (.ok acc)
  | n :: rest, acc =>
    match n with
    | .importDecl source _ =>
      if strStartsWith source "."
          && (strContainsSub source "root" || strContainsSub source "Root") then
        match w.resolve source filePath with
        | some resolvedPath =>
          match recurse resolvedPath with
          | none => none
          | some (.ok rootChecks) => oldGoImports recurse w filePath rest (acc ++ rootChecks)
          | some (.error _) => oldGoImports recurse w filePath rest acc
        | none => oldGoImports recurse w filePath rest acc
      else oldGoImports recurse w filePath rest acc
    | _ => oldGoImports recurse w filePath rest acc

/-- `find_component_checks_in_file` (`component_analyzer.rs:262-332`),
with explicit fuel: the Rust function recurses into further `root`-named
imports with no cycle protection whatsoever, so the embedding returns
`none` when the recursion depth exceeds the fuel — `(∀ fuel, … = none)`
states that the recursion never bottoms out.  A failing read is an
error; a file with parse errors yields `Ok(vec![])`.  (Import resolution
— the old `resolve_import_path` of `component_analyzer.rs:521-548`, a
pure function of the filesystem — is abstracted as the world's
resolver.) -/
def findComponentChecksInFile (w : World) :
    Nat → String → Option (Except Unit (List ComponentWithCheck))
  | 0, _ => none
  | fuel + 1, filePath =>
    match assocFind filePath w.files with
    | none => some (.error ())
    | some entry =>
      match entry.parsed with
      | none => some (.ok [])
      | some pf =>
        let checks := oldDirectChecks pf.nodes
        if checks.isEmpty then
          oldGoImports (findComponentChecksInFile w fuel) w filePath pf.nodes []
        else some (.ok checks)

/-! ### Concrete instantiations

`oxcIsIdentifierName`/`oxcReservedKeywords` model the external
`oxc_syntax` predicates on the ASCII names used below; theorems about
`is_component_name` quantify over arbitrary predicates, the concrete ones
only feed witnesses and concrete worlds. -/

/-- ASCII model of `oxc_syntax::identifier::is_identifier_name`. -/
def oxcIsIdentifierName (s : String) : Bool :=
  match s.data with
  | [] => false
  | c :: cs =>
    (c.isAlpha || c = '_' || c = '$')
      && cs.all fun d => d.isAlphanum || d = '_' || d = '$'

/-- ASCII model of the name set behind
`oxc_syntax::keyword::is_reserved_keyword_or_global_object`. -/
def oxcReservedKeywords : List String :=
  ["await", "break", "case", "catch", "class", "const", "continue",
   "debugger", "default", "delete", "do", "else", "enum", "export",
   "extends", "false", "finally", "for", "function", "if", "in",
   "instanceof", "new", "null", "return", "super", "switch", "this",
   "throw", "true", "try", "typeof", "var", "void", "while", "with",
   "yield", "let", "static", "implements", "interface", "private",
   "protected", "public", "undefined", "globalThis", "Infinity", "NaN",
   "package", "import"]

/-- The concrete name predicates used by witnesses and concrete worlds. -/
def oxcPreds : NamePreds :=
  ⟨oxcIsIdentifierName, fun s => oxcReservedKeywords.any (· = s)⟩

/-- Consumer file of the determinism scenario: imports `Aaa` and `Bbb`
from two local modules and renders both. -/
def pfAppC5 : ParsedFile :=
  { nodes := [
      .importDecl "./aaa" (some ["Aaa"]),
      .importDecl "./bbb" (some ["Bbb"]),
      .jsxOpening (.ref "Aaa") ⟨10, 16⟩,
      .jsxOpening (.ref "Bbb") ⟨20, 26⟩],
    rootBindings := [("Aaa", 0), ("Bbb", 1)] }

/-- Component file containing `isComponentPresent(Xxx)`. -/
def pfAaa : ParsedFile :=
  { nodes := [
      .callExpr (some "isComponentPresent") [⟨"Xxx", some "Xxx", none, (30, 33)⟩] ⟨12, 34⟩,
      .jsxOpening (.tag "div") ⟨40, 45⟩],
    rootBindings := [] }

/-- Component file containing `isComponentPresent(Yyy)`. -/
def pfBbb : ParsedFile :=
  { nodes := [
      .callExpr (some "isComponentPresent") [⟨"Yyy", some "Yyy", none, (50, 53)⟩] ⟨32, 54⟩,
      .jsxOpening (.tag "span") ⟨60, 66⟩],
    rootBindings := [] }

/-- World of the determinism scenario. -/
def wC5 : World :=
  { files := [
      ("/p/app.tsx", ⟨"", some pfAppC5⟩),
      ("/p/aaa.tsx", ⟨"", some pfAaa⟩),
      ("/p/bbb.tsx", ⟨"", some pfBbb⟩)],
    dirs := [],
    resolve := fun src cur =>
      if src = "./aaa" && cur = "/p/app.tsx" then some "/p/aaa.tsx"
      else if src = "./bbb" && cur = "/p/app.tsx" then some "/p/bbb.tsx"
      else none,
    canon := fun p =>
      if p = "/p/app.tsx" || p = "/p/aaa.tsx" || p = "/p/bbb.tsx" then some p else none }

/-- Consumer file of the external-import scenario: imports the namespace
`NS` from the bare package specifier `some-pkg` (an installed external
package) and renders `NS.Child`. -/
def pfAppC6 : ParsedFile :=
  { nodes := [
      .importDecl "some-pkg" (some ["NS"]),
      .jsxOpening (.member "NS" "Child") ⟨8, 20⟩],
    rootBindings := [("NS", 0)] }

/-- World of the external-import scenario: the bare specifier resolves
(as `oxc_resolver` does for installed packages) into `node_modules`. -/
def wC6 : World :=
  { files := [
      ("/q/app.tsx", ⟨"", some pfAppC6⟩),
      ("/q/node_modules/some-pkg/index.js", ⟨"", some ⟨[], []⟩⟩)],
    dirs := [],
    resolve := fun src cur =>
      if src = "some-pkg" && cur = "/q/app.tsx" then
        some "/q/node_modules/some-pkg/index.js"
      else none,
    canon := fun p => some p }

/-- Mutually importing pair for the cycle scenario: each file only
imports the other through a `root`-named relative specifier and contains
no direct marker call. -/
def pfRootA : ParsedFile :=
  { nodes := [.importDecl "./b-root" (some ["BRoot"])], rootBindings := [] }

/-- Second file of the mutual-import cycle. -/
def pfRootB : ParsedFile :=
  { nodes := [.importDecl "./a-root" (some ["ARoot"])], rootBindings := [] }

/-- World of the cycle scenario. -/
def wC1 : World :=
  { files := [
      ("/c/a-root.tsx", ⟨"", some pfRootA⟩),
      ("/c/b-root.tsx", ⟨"", some pfRootB⟩)],
    dirs := [],
    resolve := fun src cur =>
      if src = "./b-root" && cur = "/c/a-root.tsx" then some "/c/b-root.tsx"
      else if src = "./a-root" && cur = "/c/b-root.tsx" then some "/c/a-root.tsx"
      else none,
    canon := fun _ => none }

/-- World with one dependency file that fails to parse. -/
def wC2 : World :=
  { files := [("/d/dep.tsx", ⟨"", none⟩)],
    dirs := [],
    resolve := fun _ _ => none,
    canon := fun _ => none }

/-- The decidability of patch disjointness (used by concrete checks). -/
instance (p q : Transformation) : Decidable (patchDisjoint p q) := by
  unfold patchDisjoint
  exact inferInstance

/-! ### Theorems -/

/-- C1: the recursive presence search carries no visited set, and on the
mutual-import cycle of `wC1` (file A's component renders through file B
and vice versa, each reached through a `root`-named relative import) the
recursion of `find_component_checks_in_file` never bottoms out: for every
recursion budget the fuelled embedding exhausts it, i.e. the Rust
function recurses unboundedly instead of returning `NotFound`. -/
theorem findComponentChecks_diverges_on_cycle :
    ∀ fuel : Nat, findComponentChecksInFile wC1 fuel "/c/a-root.tsx" = none := by
  have key : ∀ fuel : Nat,
      findComponentChecksInFile wC1 fuel "/c/a-root.tsx" = none ∧
      findComponentChecksInFile wC1 fuel "/c/b-root.tsx" = none := by
    intro fuel
    induction fuel with
    | zero => exact ⟨rfl, rfl⟩
    | succ n ih =>
      have ha : findComponentChecksInFile wC1 (n + 1) "/c/a-root.tsx"
          = (match findComponentChecksInFile wC1 n "/c/b-root.tsx" with
             | none => none
             | some (.ok cs) => some (.ok ([] ++ cs))
             | some (.error _) => some (.ok [])) := rfl
      have hb : findComponentChecksInFile wC1 (n + 1) "/c/b-root.tsx"
          = (match findComponentChecksInFile wC1 n "/c/a-root.tsx" with
             | none => none
             | some (.ok cs) => some (.ok ([] ++ cs))
             | some (.error _) => some (.ok [])) := rfl
      refine ⟨?_, ?_⟩
      · rw [ha, ih.2]
      · rw [hb, ih.1]
  exact fun fuel => (key fuel).1

/-- C2 (counterexample): the analyzer does *not* return an error result
when the top-level target file fails to parse — it returns a successful
empty analysis (`mod.rs:36-44`), here evaluated at a concrete world. -/
theorem analyze_parse_failure_not_error :
    analyzeCodeWithSemanticsOrd oxcPreds wC2 none "/d/app.tsx" [] = .ok ⟨false, []⟩ := rfl

/-- C2 (amended): a top-level parse failure yields the successful empty
result (verdict `false`, no patches) rather than an explicit error, while
a parse failure of a transitively visited dependency file makes only that
branch report nothing: `find_calls_in_file` returns `Ok([])` and the
JSX-content, file-component and defines-component probes return
`Ok(false)`. -/
theorem analyze_parse_failure_behaviour
    (P : NamePreds) (w : World) (filePath depPath targetComponent : String)
    (ord : List String) (entry : FileEntry)
    (hdep : assocFind depPath w.files = some entry) (hparse : entry.parsed = none) :
    analyzeCodeWithSemanticsOrd P w none filePath ord = .ok ⟨false, []⟩ ∧
    findCallsInFile w depPath = .ok [] ∧
    analyzeJsxContentInComponentFile w depPath targetComponent = .ok false ∧
    fileHasComponent w depPath targetComponent = .ok false ∧
    componentFileDefinesComponent w depPath targetComponent = .ok false := by
  refine ⟨rfl, ?_, ?_, ?_, ?_⟩ <;>
    simp [findCallsInFile, analyzeJsxContentInComponentFile, fileHasComponent,
      componentFileDefinesComponent, hdep, hparse]

/-- Witness for `analyze_parse_failure_behaviour` at the concrete world
`wC2`, whose file `/d/dep.tsx` fails to parse. -/
theorem analyze_parse_failure_behaviour_witness :
    analyzeCodeWithSemanticsOrd oxcPreds wC2 none "/d/app.tsx" [] = .ok ⟨false, []⟩ ∧
    findCallsInFile wC2 "/d/dep.tsx" = .ok [] ∧
    analyzeJsxContentInComponentFile wC2 "/d/dep.tsx" "Child" = .ok false ∧
    fileHasComponent wC2 "/d/dep.tsx" "Child" = .ok false ∧
    componentFileDefinesComponent wC2 "/d/dep.tsx" "Child" = .ok false :=
  analyze_parse_failure_behaviour oxcPreds wC2 "/d/app.tsx" "/d/dep.tsx" "Child" []
    ⟨"", none⟩ rfl rfl

set_option maxRecDepth 10000 in
/-- C5: the analyzer's patch list depends on the iteration order of the
`HashSet` of extracted JSX components (randomized across runs by Rust's
`RandomState`): on the world `wC5`, the insertion-order run and the
reversed-order run — both enumerations of the same extracted set — return
the same verdict but the two prop-injection patches in opposite orders,
so two runs over the unchanged file tree can return different patch
lists. -/
theorem analyze_order_dependent :
    (["Bbb", "Aaa"].Perm (extractImportedJsxComponents oxcPreds pfAppC5)) ∧
    analyzeCodeWithSemanticsOrd oxcPreds wC5 (some pfAppC5) "/p/app.tsx"
        (extractImportedJsxComponents oxcPreds pfAppC5)
      = .ok ⟨true, [⟨15, 15, " __qwik_analyzer_has_Xxx=\x7btrue\x7d"⟩,
                    ⟨25, 25, " __qwik_analyzer_has_Yyy=\x7btrue\x7d"⟩]⟩ ∧
    analyzeCodeWithSemanticsOrd oxcPreds wC5 (some pfAppC5) "/p/app.tsx" ["Bbb", "Aaa"]
      = .ok ⟨true, [⟨25, 25, " __qwik_analyzer_has_Yyy=\x7btrue\x7d"⟩,
                    ⟨15, 15, " __qwik_analyzer_has_Xxx=\x7btrue\x7d"⟩]⟩ ∧
    ([⟨15, 15, " __qwik_analyzer_has_Xxx=\x7btrue\x7d"⟩,
      ⟨25, 25, " __qwik_analyzer_has_Yyy=\x7btrue\x7d"⟩] : List Transformation)
      ≠ [⟨25, 25, " __qwik_analyzer_has_Yyy=\x7btrue\x7d"⟩,
         ⟨15, 15, " __qwik_analyzer_has_Xxx=\x7btrue\x7d"⟩] :=
  ⟨by decide, rfl, rfl, by decide⟩

/-- C6: an element rendered through a namespace imported from an
installed external package *is* counted as a presence match: in `wC6` the
specifier `some-pkg` resolves into `node_modules` (so the code's own
`is_external_import` classifies it as external), yet the direct presence
check `component_exists_in_jsx_with_path` accepts the dotted usage
`NS.Child` for the bare target `Child` because
`can_resolve_namespace_locally` only tests that resolution succeeds, and
`has_component` therefore reports the component present. -/
theorem external_namespace_counted_as_match :
    isExternalImport wC6 "some-pkg" "/q/app.tsx" = true ∧
    componentExistsInJsxWithPath wC6 pfAppC6 "Child" "/q/app.tsx" = true ∧
    hasComponent oxcPreds wC6 pfAppC6 "Child" "/q/app.tsx" = .ok true :=
  ⟨by decide, by decide, rfl⟩

/-- Membership after the dedup insertion: the element was already there
or is the inserted one. -/
theorem mem_insertNew {x y : String} {l : List String} (h : y ∈ insertNew x l) :
    y ∈ l ∨ y = x := by
  unfold insertNew at h
  by_cases hx : x ∈ l
  · rw [if_pos hx] at h; exact .inl h
  · rw [if_neg hx] at h
    rcases List.mem_append.1 h with h' | h'
    · exact .inl h'
    · exact .inr (List.mem_singleton.1 h')

/-- A successful `parse_member_component` result contains a dot. -/
theorem parseMemberComponent_hasDot {en fc : String}
    (h : parseMemberComponent en = some fc) : strContainsChar fc '.' = true := by
  unfold parseMemberComponent at h
  cases hs : splitOnDot en with
  | nil => rw [hs] at h; cases h
  | cons a t1 =>
    cases t1 with
    | nil => rw [hs] at h; cases h
    | cons b t2 =>
      cases t2 with
      | nil =>
        rw [hs] at h
        cases h
        simp [strContainsChar, String.data_append]
      | cons c t3 => rw [hs] at h; cases h

/-- A dot-free name in the extraction fold either was in the accumulator
or passed `is_component_name`. -/
theorem mem_extract_foldl (P : NamePreds) (nodes : List Node) (acc : List String)
    (name : String) (h : name ∈ nodes.foldl (extractStep P) acc)
    (hnd : strContainsChar name '.' = false) :
    name ∈ acc ∨ isComponentName P name = true := by
  induction nodes generalizing acc with
  | nil => exact .inl h
  | cons n rest ih =>
    rcases ih (extractStep P acc n) h with hmem | hic
    · cases n with
      | jsxOpening jn sp =>
        unfold extractStep at hmem
        dsimp only at hmem
        cases hx : extractJsxElementName jn with
        | none => rw [hx] at hmem; exact .inl hmem
        | some en =>
          rw [hx] at hmem
          by_cases hdot : strContainsChar en '.' = true
          · simp only [hdot, if_true] at hmem
            cases hp : parseMemberComponent en with
            | none => rw [hp] at hmem; exact .inl hmem
            | some fc =>
              rw [hp] at hmem
              rcases mem_insertNew hmem with h' | h'
              · exact .inl h'
              · subst h'
                rw [parseMemberComponent_hasDot hp] at hnd
                cases hnd
          · simp only [Bool.not_eq_true] at hdot
            simp only [hdot, Bool.false_eq_true, if_false] at hmem
            by_cases hic2 : isComponentName P en = true
            · rw [if_pos hic2] at hmem
              rcases mem_insertNew hmem with h' | h'
              · exact .inl h'
              · subst h'; exact .inr hic2
            · rw [if_neg hic2] at hmem; exact .inl hmem
      | importDecl a b => exact .inl hmem
      | callExpr a b c => exact .inl hmem
      | exportNamed a b => exact .inl hmem
      | varDecl a b => exact .inl hmem
    · exact .inr hic

/-- C7: every bare-identifier JSX element name kept by the Symbol/Usage
Extractor satisfies all four conditions of `is_component_name`: it is a
syntactically valid identifier, starts with an ASCII uppercase letter, is
not a reserved keyword or global object name, and is not
(case-insensitively) one of the fixed `HTML_TAGS` set; names failing one
of them never enter the extracted component set. -/
theorem extracted_bare_name_is_component_name
    (P : NamePreds) (pf : ParsedFile) (name : String)
    (hmem : name ∈ extractImportedJsxComponents P pf)
    (hbare : strContainsChar name '.' = false) :
    P.isIdentifierName name = true ∧
    firstCharIsAsciiUppercase name = true ∧
    P.isReservedKeywordOrGlobalObject name = false ∧
    isHtmlElement name = false := by
  have hc : isComponentName P name = true := by
    rcases mem_extract_foldl P pf.nodes [] name hmem hbare with h | h
    · cases h
    · exact h
  cases e1 : P.isIdentifierName name <;>
    cases e2 : firstCharIsAsciiUppercase name <;>
      cases e3 : P.isReservedKeywordOrGlobalObject name <;>
        cases e4 : isHtmlElement name <;>
          simp_all [isComponentName]

/-- Witness for `extracted_bare_name_is_component_name`: the file
rendering just the element `Foo` extracts the name `Foo`, which satisfies
all four conditions. -/
theorem extracted_bare_name_is_component_name_witness :
    ("Foo" ∈ extractImportedJsxComponents oxcPreds ⟨[.jsxOpening (.ref "Foo") ⟨0, 5⟩], []⟩) ∧
    (oxcPreds.isIdentifierName "Foo" = true ∧
     firstCharIsAsciiUppercase "Foo" = true ∧
     oxcPreds.isReservedKeywordOrGlobalObject "Foo" = false ∧
     isHtmlElement "Foo" = false) :=
  ⟨by decide,
   extracted_bare_name_is_component_name oxcPreds ⟨[.jsxOpening (.ref "Foo") ⟨0, 5⟩], []⟩
     "Foo" (by decide) (by decide)⟩

/-- C8: a marker call whose first argument is neither an identifier nor
has a `'.'` in its source text (e.g. an integer literal) is skipped
entirely: the presence-call collection and the call-rewrite generation of
a file containing it equal those of the same file without it, so it
yields no rewrite patch, no prop patch and no presence query, while every
other call is processed unchanged. -/
theorem numeric_marker_call_skipped
    (pre post : List Node) (args : List CallArg) (span : Span)
    (arg : CallArg) (rest : List CallArg) (filePath : String)
    (hargs : args = arg :: rest) (hident : arg.identName = none)
    (hdot : strContainsChar arg.text '.' = false) :
    presenceCallsOfNodes filePath
        (pre ++ Node.callExpr (some "isComponentPresent") args span :: post)
      = presenceCallsOfNodes filePath (pre ++ post) ∧
    createCallTransformsOfNodes
        (pre ++ Node.callExpr (some "isComponentPresent") args span :: post)
      = createCallTransformsOfNodes (pre ++ post) := by
  subst hargs
  constructor
  · unfold presenceCallsOfNodes
    rw [List.filterMap_append, List.filterMap_append, List.filterMap_cons]
    simp [hident, hdot]
  · unfold createCallTransformsOfNodes
    rw [List.filterMap_append, List.filterMap_append, List.filterMap_cons]
    simp [hident, hdot, extractedComponentName]

/-- Witness for `numeric_marker_call_skipped`: a file holding a valid
marker call on `Desc` and a numeric-literal call `isComponentPresent(42)`
behaves exactly like the file without the numeric call. -/
theorem numeric_marker_call_skipped_witness :
    ((⟨"42", none, none, (10, 12)⟩ : CallArg).identName = none) ∧
    (strContainsChar (⟨"42", none, none, (10, 12)⟩ : CallArg).text '.' = false) ∧
    (presenceCallsOfNodes "/p/aaa.tsx"
        ([.callExpr (some "isComponentPresent") [⟨"Desc", some "Desc", none, (30, 34)⟩] ⟨20, 35⟩]
          ++ Node.callExpr (some "isComponentPresent") [⟨"42", none, none, (10, 12)⟩] ⟨2, 13⟩
            :: [])
      = presenceCallsOfNodes "/p/aaa.tsx"
          ([.callExpr (some "isComponentPresent") [⟨"Desc", some "Desc", none, (30, 34)⟩] ⟨20, 35⟩]
            ++ []) ∧
    createCallTransformsOfNodes
        ([.callExpr (some "isComponentPresent") [⟨"Desc", some "Desc", none, (30, 34)⟩] ⟨20, 35⟩]
          ++ Node.callExpr (some "isComponentPresent") [⟨"42", none, none, (10, 12)⟩] ⟨2, 13⟩
            :: [])
      = createCallTransformsOfNodes
          ([.callExpr (some "isComponentPresent") [⟨"Desc", some "Desc", none, (30, 34)⟩] ⟨20, 35⟩]
            ++ [])) :=
  ⟨rfl, by decide,
   numeric_marker_call_skipped
     [.callExpr (some "isComponentPresent") [⟨"Desc", some "Desc", none, (30, 34)⟩] ⟨20, 35⟩]
     [] [⟨"42", none, none, (10, 12)⟩] ⟨2, 13⟩ ⟨"42", none, none, (10, 12)⟩ []
     "/p/aaa.tsx" rfl rfl (by decide)⟩

/-- C9 (counterexample): for the marker call whose first-argument source
text is `"A .B"` — a member reference containing a space — the emitted
rewrite derives the prop name by replacing only the dot, keeping the
space verbatim; the name obtained by replacing *every* non-alphanumeric
character (the claim's wording) differs. -/
theorem prop_name_not_fully_sanitized :
    createCallTransformsOfNodes
        [.callExpr (some "isComponentPresent") [⟨"A .B", none, none, (21, 26)⟩] ⟨2, 27⟩]
      = [⟨2, 27, "isComponentPresent(A .B, props.__qwik_analyzer_has_A _B)"⟩] ∧
    propNameOf "A .B" ≠ propNameSpecWords "A .B" := ⟨by decide, by decide⟩

/-- C9 (amended): every marker-call rewrite replaces the full call span
with `isComponentPresent(<original argument text>, props.<prop>)` where
`<prop>` is the fixed prefix followed by the derived component name with
every `'.'` (and only `'.'`) replaced by `'_'`; and every usage-site
injection patch writes the same deterministically derived prop name with
the call's boolean verdict as the attribute value. -/
theorem marker_rewrite_and_injection_prop_names
    (w : World) (pf : ParsedFile) (currentFile : String)
    (pre post : List Node) (args : List CallArg) (span : Span)
    (arg : CallArg) (rest : List CallArg) (componentName : String)
    (call : ComponentPresenceCall) (t : Transformation)
    (hargs : args = arg :: rest)
    (hname : extractedComponentName arg = some componentName) :
    createCallTransformsOfNodes
        (pre ++ Node.callExpr (some "isComponentPresent") args span :: post)
      = createCallTransformsOfNodes pre
        ++ (⟨span.start, span.stop,
            "isComponentPresent(" ++ arg.text ++ ", props." ++ propNameOf componentName ++ ")"⟩ :
              Transformation)
          :: createCallTransformsOfNodes post ∧
    (t ∈ generateJsxPropTransformations w pf call currentFile →
      t.replacement
        = " " ++ propNameOf call.componentName ++ "=\x7b"
            ++ (if call.isPresentInSubtree then "true" else "false") ++ "\x7d") := by
  constructor
  · subst hargs
    unfold createCallTransformsOfNodes
    rw [List.filterMap_append, List.filterMap_cons]
    simp [hname]
  · intro ht
    unfold generateJsxPropTransformations at ht
    rcases List.mem_filterMap.1 ht with ⟨n, _, hf⟩
    cases n with
    | jsxOpening jn sp2 =>
      dsimp only at hf
      cases hx : extractJsxElementName jn with
      | none => rw [hx] at hf; cases hf
      | some en =>
        rw [hx] at hf
        dsimp only at hf
        cases hres : jsxElementResolvesToSourceFile w pf en call.sourceFile currentFile with
        | false => simp [hres] at hf
        | true =>
          simp only [hres, if_true] at hf
          cases hf
          rfl
    | importDecl a b => exact Option.noConfusion hf
    | callExpr a b c => exact Option.noConfusion hf
    | exportNamed a b => exact Option.noConfusion hf
    | varDecl a b => exact Option.noConfusion hf

/-- Witness for `marker_rewrite_and_injection_prop_names` at a concrete
dotted argument `A.B` and the usage-site patches of the world `wC5`. -/
theorem marker_rewrite_and_injection_prop_names_witness :
    createCallTransformsOfNodes
        ([] ++ Node.callExpr (some "isComponentPresent") [⟨"A.B", none, none, (5, 8)⟩] ⟨2, 9⟩
          :: [])
      = createCallTransformsOfNodes []
        ++ (⟨(⟨2, 9⟩ : Span).start, (⟨2, 9⟩ : Span).stop,
            "isComponentPresent(" ++ (⟨"A.B", none, none, (5, 8)⟩ : CallArg).text
              ++ ", props." ++ propNameOf "A.B" ++ ")"⟩ : Transformation)
          :: createCallTransformsOfNodes [] ∧
    ((⟨15, 15, " __qwik_analyzer_has_Xxx=\x7btrue\x7d"⟩ : Transformation)
        ∈ generateJsxPropTransformations wC5 pfAppC5 ⟨"Xxx", true, "/p/aaa.tsx"⟩ "/p/app.tsx" →
      (⟨15, 15, " __qwik_analyzer_has_Xxx=\x7btrue\x7d"⟩ : Transformation).replacement
        = " " ++ propNameOf (⟨"Xxx", true, "/p/aaa.tsx"⟩ : ComponentPresenceCall).componentName
            ++ "=\x7b"
            ++ (if (⟨"Xxx", true, "/p/aaa.tsx"⟩ : ComponentPresenceCall).isPresentInSubtree
                then "true" else "false") ++ "\x7d") :=
  marker_rewrite_and_injection_prop_names wC5 pfAppC5 "/p/app.tsx" [] []
    [⟨"A.B", none, none, (5, 8)⟩] ⟨2, 9⟩ ⟨"A.B", none, none, (5, 8)⟩ [] "A.B"
    ⟨"Xxx", true, "/p/aaa.tsx"⟩ ⟨15, 15, " __qwik_analyzer_has_Xxx=\x7btrue\x7d"⟩ rfl (by decide)

/-- C10: every transformation the generator emits for a JSX usage site or
for a missing props parameter is a pure insertion (start equals stop),
and every marker-call rewrite covers exactly the span of an
`isComponentPresent` call expression of the file; no other byte range is
produced. -/
theorem emitted_transformation_spans
    (w : World) (pf : ParsedFile) (calls : List ComponentPresenceCall)
    (currentFile sourceText : String) (t tr : Transformation) :
    (t ∈ transformFile w pf calls currentFile → t.start = t.stop) ∧
    (createPropsParameterTransformation pf sourceText = some tr → tr.start = tr.stop) ∧
    (t ∈ createCallTransformsOfNodes pf.nodes →
      ∃ args span, Node.callExpr (some "isComponentPresent") args span ∈ pf.nodes ∧
        t.start = span.start ∧ t.stop = span.stop) := by
  refine ⟨?_, ?_, ?_⟩
  · intro ht
    unfold transformFile at ht
    rcases List.mem_flatMap.1 ht with ⟨call, _, hmem⟩
    unfold generateJsxPropTransformations at hmem
    rcases List.mem_filterMap.1 hmem with ⟨n, _, hf⟩
    cases n with
    | jsxOpening jn sp2 =>
      dsimp only at hf
      cases hx : extractJsxElementName jn with
      | none => rw [hx] at hf; cases hf
      | some en =>
        rw [hx] at hf
        dsimp only at hf
        cases hres : jsxElementResolvesToSourceFile w pf en call.sourceFile currentFile with
        | false => simp [hres] at hf
        | true =>
          simp only [hres, if_true] at hf
          cases hf
          rfl
    | importDecl a b => exact Option.noConfusion hf
    | callExpr a b c => exact Option.noConfusion hf
    | exportNamed a b => exact Option.noConfusion hf
    | varDecl a b => exact Option.noConfusion hf
  · intro htr
    unfold createPropsParameterTransformation at htr
    cases hi : findComponentInfo pf with
    | none => rw [hi] at htr; cases htr
    | some info =>
      rw [hi] at htr
      obtain ⟨componentStart, componentHasProps⟩ := info
      cases componentHasProps with
      | true => simp at htr
      | false =>
        simp only [Bool.false_eq_true, if_false] at htr
        cases hj : (sourceText.data.drop componentStart).findIdx? (· = '(') with
        | none => rw [hj] at htr; cases htr
        | some parenPos =>
          rw [hj] at htr
          cases htr
          rfl
  · intro ht
    unfold createCallTransformsOfNodes at ht
    rcases List.mem_filterMap.1 ht with ⟨n, hn, hf⟩
    cases n with
    | callExpr callee args sp2 =>
      dsimp only at hf
      by_cases hc : callee = some "isComponentPresent"
      · rw [if_pos hc] at hf
        cases hb : args.head? with
        | none => rw [hb] at hf; exact Option.noConfusion hf
        | some arg =>
          rw [hb] at hf
          dsimp only [Option.bind] at hf
          cases he : extractedComponentName arg with
          | none => rw [he] at hf; exact Option.noConfusion hf
          | some nm =>
            rw [he] at hf
            dsimp only [Option.map] at hf
            cases hf
            subst hc
            exact ⟨args, sp2, hn, rfl, rfl⟩
      · rw [if_neg hc] at hf; exact Option.noConfusion hf
    | importDecl a b => exact Option.noConfusion hf
    | jsxOpening a b => exact Option.noConfusion hf
    | exportNamed a b => exact Option.noConfusion hf
    | varDecl a b => exact Option.noConfusion hf

/-- The stable insertion equals Mathlib's ordered insertion for the
descending-start relation. -/
theorem insertDesc_eq_orderedInsert (p : Transformation) (l : List Transformation) :
    insertDesc p l = List.orderedInsert (fun a b => b.start ≤ a.start) p l := by
  induction l with
  | nil => rfl
  | cons q rest ih =>
    unfold insertDesc List.orderedInsert
    rw [ih]

/-- The stable sort equals Mathlib's insertion sort for the
descending-start relation. -/
theorem sortDescByStart_eq_insertionSort (l : List Transformation) :
    sortDescByStart l = List.insertionSort (fun a b => b.start ≤ a.start) l := by
  induction l with
  | nil => rfl
  | cons p rest ih =>
    unfold sortDescByStart List.insertionSort
    rw [ih, insertDesc_eq_orderedInsert]

/-- Sorting permutes the patch list. -/
theorem sortDescByStart_perm (l : List Transformation) : (sortDescByStart l).Perm l := by
  rw [sortDescByStart_eq_insertionSort]
  exact List.perm_insertionSort _ l

/-- The sorted list is pairwise descending in `start`. -/
theorem sortDescByStart_sorted (l : List Transformation) :
    (sortDescByStart l).Pairwise (fun a b => b.start ≤ a.start) := by
  rw [sortDescByStart_eq_insertionSort]
  haveI : IsTotal Transformation (fun a b => b.start ≤ a.start) :=
    ⟨fun a b => Nat.le_total b.start a.start⟩
  haveI : IsTrans Transformation (fun a b => b.start ≤ a.start) :=
    ⟨fun _ _ _ hab hbc => le_trans hbc hab⟩
  exact List.sorted_insertionSort _ l

/-- Applying an ascending chain of patches (the fold runs right to left,
so higher-offset patches go first, as the applicator does) leaves every
prefix of the text below the chain untouched and never shortens the text
below the chain's base offset. -/
theorem foldr_applyOne_take (text : List Char) (asc : List Transformation) :
    ∀ m : Nat, patchChain text.length m asc → m ≤ text.length →
    (asc.foldr (fun p t => applyOne t p) text).take m = text.take m ∧
    m ≤ (asc.foldr (fun p t => applyOne t p) text).length := by
  induction asc with
  | nil => exact fun m _ hm => ⟨rfl, hm⟩
  | cons p rest ih =>
    intro m hchain hm
    obtain ⟨h1, h2, h3, h4⟩ := hchain
    obtain ⟨htake, hlen⟩ := ih p.stop h4 h3
    have hstart : p.start ≤ (rest.foldr (fun p t => applyOne t p) text).length :=
      le_trans h2 hlen
    have happ : (p :: rest).foldr (fun p t => applyOne t p) text
        = applyOne (rest.foldr (fun p t => applyOne t p) text) p := rfl
    set Y := rest.foldr (fun p t => applyOne t p) text with hYdef
    have hY : applyOne Y p = Y.take p.start ++ p.replacement.data ++ Y.drop p.stop := by
      unfold applyOne
      rw [if_pos ⟨hstart, hlen, h2⟩]
    have hAlen : (Y.take p.start).length = p.start := by
      rw [List.length_take]
      exact min_eq_left hstart
    have hm_start : m ≤ p.start := h1
    constructor
    · rw [happ, hY]
      have hmAB : m ≤ (Y.take p.start ++ p.replacement.data).length := by
        rw [List.length_append, hAlen]
        exact le_trans hm_start (Nat.le_add_right _ _)
      rw [List.take_append_of_le_length hmAB]
      rw [List.take_append_of_le_length
        (show m ≤ (Y.take p.start).length by rw [hAlen]; exact hm_start)]
      rw [List.take_take, min_eq_left hm_start]
      have : Y.take m = (Y.take p.stop).take m := by
        rw [List.take_take, min_eq_left (le_trans hm_start h2)]
      rw [this, htake, List.take_take, min_eq_left (le_trans hm_start h2)]
    · rw [happ, hY]
      rw [List.length_append, List.length_append, hAlen]
      exact le_trans hm_start (le_trans (Nat.le_add_right _ _) (Nat.le_add_right _ _))

/-- Applying an ascending chain of patches right to left renders, beyond
the chain's base offset, exactly the original text with each replacement
in place of its original range. -/
theorem foldr_applyOne_renders (text : List Char) (asc : List Transformation) :
    ∀ pos : Nat, patchChain text.length pos asc → pos ≤ text.length →
    (asc.foldr (fun p t => applyOne t p) text).drop pos = renderPatches text pos asc := by
  induction asc with
  | nil => exact fun pos _ _ => rfl
  | cons p rest ih =>
    intro pos hchain hpos
    obtain ⟨h1, h2, h3, h4⟩ := hchain
    obtain ⟨htake, hlen⟩ := foldr_applyOne_take text rest p.stop h4 h3
    have hstart : p.start ≤ (rest.foldr (fun p t => applyOne t p) text).length :=
      le_trans h2 hlen
    have happ : (p :: rest).foldr (fun p t => applyOne t p) text
        = applyOne (rest.foldr (fun p t => applyOne t p) text) p := rfl
    set Y := rest.foldr (fun p t => applyOne t p) text with hYdef
    have hY : applyOne Y p = Y.take p.start ++ p.replacement.data ++ Y.drop p.stop := by
      unfold applyOne
      rw [if_pos ⟨hstart, hlen, h2⟩]
    have hAlen : (Y.take p.start).length = p.start := by
      rw [List.length_take]
      exact min_eq_left hstart
    have hYtake : Y.take p.start = text.take p.start := by
      have : Y.take p.start = (Y.take p.stop).take p.start := by
        rw [List.take_take, min_eq_left h2]
      rw [this, htake, List.take_take, min_eq_left h2]
    rw [happ, hY]
    have hposAB : pos ≤ (Y.take p.start ++ p.replacement.data).length := by
      rw [List.length_append, hAlen]
      exact le_trans h1 (Nat.le_add_right _ _)
    rw [List.drop_append_of_le_length hposAB]
    rw [List.drop_append_of_le_length
      (show pos ≤ (Y.take p.start).length by rw [hAlen]; exact h1)]
    rw [hYtake, List.drop_take]
    rw [ih p.stop h4 h3]
    rfl

/-- A strictly ascending, pairwise-disjoint, in-bounds patch list forms
an ascending chain from any base offset below its first start. -/
theorem patchChain_of_sorted (textLen : Nat) (asc : List Transformation) :
    ∀ pos : Nat,
    asc.Pairwise (fun a b => a.start < b.start) →
    asc.Pairwise patchDisjoint →
    (∀ p ∈ asc, p.start ≤ p.stop ∧ p.stop ≤ textLen) →
    (∀ p ∈ asc, pos ≤ p.start) →
    patchChain textLen pos asc := by
  induction asc with
  | nil => exact fun _ _ _ _ _ => trivial
  | cons p rest ih =>
    intro pos hsorted hdisj hbound hpos
    have hps := hbound p (List.mem_cons_self p rest)
    refine ⟨hpos p (List.mem_cons_self p rest), hps.1, hps.2, ?_⟩
    apply ih p.stop (List.pairwise_cons.1 hsorted).2 (List.pairwise_cons.1 hdisj).2
      (fun q hq => hbound q (List.mem_cons_of_mem p hq))
    intro q hq
    have hlt : p.start < q.start := (List.pairwise_cons.1 hsorted).1 q hq
    rcases (List.pairwise_cons.1 hdisj).1 q hq with h | h
    · exact h
    · exfalso
      have hqq : q.start ≤ q.stop := (hbound q (List.mem_cons_of_mem p hq)).1
      omega

/-- C3 (counterexample): the patch set holding the pure insertion
`[5,5)↦"X"` and the replacement `[5,9)↦"Y"` is pairwise non-overlapping
(half-open ranges) and within the bounds of the ten-character text, yet
the applicator's result differs from the rendering that puts each
replacement at its original byte range, under either ordering of the two
patches: applied descending with the tie kept stable, the later patch
splices out the just-inserted text. -/
theorem patch_set_with_shared_start_misplaced :
    List.Pairwise patchDisjoint [(⟨5, 5, "X"⟩ : Transformation), ⟨5, 9, "Y"⟩] ∧
    (∀ p ∈ [(⟨5, 5, "X"⟩ : Transformation), ⟨5, 9, "Y"⟩],
      p.start ≤ p.stop ∧ p.stop ≤ "abcdefghij".data.length) ∧
    applyTransformations "abcdefghij".data [⟨5, 5, "X"⟩, ⟨5, 9, "Y"⟩]
      ≠ renderPatches "abcdefghij".data 0 [⟨5, 5, "X"⟩, ⟨5, 9, "Y"⟩] ∧
    applyTransformations "abcdefghij".data [⟨5, 5, "X"⟩, ⟨5, 9, "Y"⟩]
      ≠ renderPatches "abcdefghij".data 0 [⟨5, 9, "Y"⟩, ⟨5, 5, "X"⟩] := by
  decide

/-- C3 (amended): for every patch set that is pairwise non-overlapping,
within the bounds of the input text, *and has pairwise distinct start
offsets*, the applicator — which sorts by descending start, validates the
bounds and splices each replacement — produces exactly the original text
with each replacement in place of its original byte range (the rendering
of the ascending ordering of the set). -/
theorem applyTransformations_renders (text : List Char) (ps : List Transformation)
    (hdisj : ps.Pairwise patchDisjoint)
    (hbound : ∀ p ∈ ps, p.start ≤ p.stop ∧ p.stop ≤ text.length)
    (hnodup : (ps.map (fun p => p.start)).Nodup) :
    applyTransformations text ps = renderPatches text 0 ((sortDescByStart ps).reverse) := by
  have hperm : (sortDescByStart ps).Perm ps := sortDescByStart_perm ps
  have hsorted := sortDescByStart_sorted ps
  have hascperm : ((sortDescByStart ps).reverse).Perm ps :=
    ((sortDescByStart ps).reverse_perm).trans hperm
  have hasc_le : ((sortDescByStart ps).reverse).Pairwise (fun a b => a.start ≤ b.start) :=
    List.pairwise_reverse.2 hsorted
  have hnodup' : (((sortDescByStart ps).reverse).map (fun p => p.start)).Nodup :=
    ((hascperm.map (fun p => p.start)).nodup_iff).2 hnodup
  have hne : ((sortDescByStart ps).reverse).Pairwise (fun a b => a.start ≠ b.start) :=
    List.pairwise_map.1 hnodup'
  have hstrict : ((sortDescByStart ps).reverse).Pairwise (fun a b => a.start < b.start) :=
    (hasc_le.and hne).imp fun h => lt_of_le_of_ne h.1 h.2
  have hdisj' : ((sortDescByStart ps).reverse).Pairwise patchDisjoint :=
    (hascperm.pairwise_iff (fun h => h.symm)).2 hdisj
  have hbound' : ∀ p ∈ (sortDescByStart ps).reverse,
      p.start ≤ p.stop ∧ p.stop ≤ text.length :=
    fun p hp => hbound p (hascperm.mem_iff.1 hp)
  have hchain := patchChain_of_sorted text.length ((sortDescByStart ps).reverse) 0
    hstrict hdisj' hbound' (fun _ _ => Nat.zero_le _)
  unfold applyTransformations
  have hfold : (sortDescByStart ps).foldl applyOne text
      = ((sortDescByStart ps).reverse).foldr (fun p t => applyOne t p) text := by
    conv_lhs => rw [show sortDescByStart ps = ((sortDescByStart ps).reverse).reverse from
      (List.reverse_reverse _).symm]
    rw [List.foldl_reverse]
  rw [hfold]
  have hmain := foldr_applyOne_renders text ((sortDescByStart ps).reverse) 0 hchain
    (Nat.zero_le _)
  rw [List.drop_zero] at hmain
  exact hmain

/-- Witness for `applyTransformations_renders` on a concrete disjoint,
in-bounds, distinct-start patch set. -/
theorem applyTransformations_renders_witness :
    List.Pairwise patchDisjoint [(⟨4, 5, "Z"⟩ : Transformation), ⟨0, 2, "W"⟩] ∧
    (∀ p ∈ [(⟨4, 5, "Z"⟩ : Transformation), ⟨0, 2, "W"⟩],
      p.start ≤ p.stop ∧ p.stop ≤ "abcdef".data.length) ∧
    (([(⟨4, 5, "Z"⟩ : Transformation), ⟨0, 2, "W"⟩].map (fun p => p.start)).Nodup) ∧
    applyTransformations "abcdef".data [⟨4, 5, "Z"⟩, ⟨0, 2, "W"⟩]
      = renderPatches "abcdef".data 0 ((sortDescByStart [⟨4, 5, "Z"⟩, ⟨0, 2, "W"⟩]).reverse) :=
  ⟨by decide, by decide, by decide,
   applyTransformations_renders "abcdef".data [⟨4, 5, "Z"⟩, ⟨0, 2, "W"⟩]
     (by decide) (by decide) (by decide)⟩

/-- C4 (counterexample): the applicator neither refuses nor reports an
error on an invalid patch set — it is an infallible function into text.
An out-of-range patch is skipped silently (the text comes back
unchanged), and a pair of overlapping in-bounds patches is spliced
without complaint, the second cutting into the first's replacement. -/
theorem applicator_silent_on_invalid :
    applyTransformations "ab".data [⟨5, 9, "X"⟩] = "ab".data ∧
    ¬ patchDisjoint ⟨0, 4, "WWWW"⟩ ⟨2, 6, "ZZZZ"⟩ ∧
    applyTransformations "abcdef".data [⟨0, 4, "WWWW"⟩, ⟨2, 6, "ZZZZ"⟩] = "WWWWZZ".data := by
  decide

/-- C4 (amended): when a patch fails the applicator's bounds check at its
turn, the applicator silently skips it and leaves the text unchanged by
that patch — it never reports an error (and overlapping in-bounds
patches are applied rather than rejected, as the counterexample
evaluates). -/
theorem applyOne_skips_invalid (t : List Char) (p : Transformation)
    (h : ¬(p.start ≤ t.length ∧ p.stop ≤ t.length ∧ p.start ≤ p.stop)) :
    applyOne t p = t := by
  unfold applyOne
  rw [if_neg h]

/-- Witness for `applyOne_skips_invalid`: the out-of-range patch `[5,9)`
on a two-character text is skipped. -/
theorem applyOne_skips_invalid_witness :
    ¬((⟨5, 9, "X"⟩ : Transformation).start ≤ "ab".data.length
        ∧ (⟨5, 9, "X"⟩ : Transformation).stop ≤ "ab".data.length
        ∧ (⟨5, 9, "X"⟩ : Transformation).start ≤ (⟨5, 9, "X"⟩ : Transformation).stop) ∧
    applyOne "ab".data ⟨5, 9, "X"⟩ = "ab".data :=
  ⟨by decide, applyOne_skips_invalid "ab".data ⟨5, 9, "X"⟩ (by decide)⟩
